import Mathlib

/-!
Verification of the pykoclaw-whatsapp message pipeline.

Shallow embedding of the core components of the WhatsApp-to-agent bridge:
the message store adapter (`handler.py`), the trigger classifier, the
outgoing queue (`queue.py`), the routing table (`routing.py`), and the
dispatch orchestrator / reply extractor / delivery poller (`connection.py`).

Strings are modelled by Lean `String`; the SQLite BINARY collation used for
`timestamp` comparison is modelled by a lexicographic comparison on the
character data (`lexCmp`), which agrees with bytewise comparison on UTF-8.
-/

namespace PykoWa


/-! ## Basic list/character utilities -/

/-- Does `p` occur at the head of `l`? (`str.startswith` at position 0). -/
def listStartsWith : List Char → List Char → Bool
  | [], _ => true
  | _ :: _, [] => false
  | p :: ps, c :: cs => p = c && listStartsWith ps cs

/-- Index of the first occurrence of `pat` in `l` (Python `re`-style leftmost
match / `str.find`). -/
def findSub (pat : List Char) : List Char → Option Nat
  | [] => if listStartsWith pat [] then some 0 else none
  | c :: cs =>
    if listStartsWith pat (c :: cs) then some 0
    else (findSub pat cs).map (· + 1)

/-- Python `pat in hay` (substring test). -/
def containsSub (pat hay : List Char) : Bool := (findSub pat hay).isSome

/-- Lowercasing as Python `str.lower()` does for ASCII text. -/
def lowerStr (s : String) : String := ⟨s.data.map Char.toLower⟩

/-- ASCII whitespace, the characters stripped by Python `str.strip()`. -/
def wsChar (c : Char) : Bool :=
  c = ' ' || c = '\t' || c = '\n' || c = '\r' || c = '\x0b' || c = '\x0c'

/-- Python `str.strip()`: drop leading and trailing whitespace. -/
def stripChars (l : List Char) : List Char :=
  ((l.dropWhile wsChar).reverse.dropWhile wsChar).reverse

/-- Join characters lists with a single separator character
(Python `sep.join(...)`). -/
def joinSep (sep : Char) : List (List Char) → List Char
  | [] => []
  | [x] => x
  | x :: y :: rest => x ++ sep :: joinSep sep (y :: rest)

/-! ## Lexicographic timestamp order

SQLite compares `TEXT` columns bytewise (BINARY collation); on UTF-8 data this
is the lexicographic order of the code points, modelled here on `List Char`. -/

def lexCmp : List Char → List Char → Ordering
  | [], [] => .eq
  | [], _ :: _ => .lt
  | _ :: _, [] => .gt
  | a :: as, b :: bs =>
    if a < b then .lt else if b < a then .gt else lexCmp as bs

def ordIsLt : Ordering → Bool
  | .lt => true
  | _ => false

def ordIsGt : Ordering → Bool
  | .gt => true
  | _ => false

/-- SQL `a < b` on text. -/
def tsLt (a b : String) : Bool := ordIsLt (lexCmp a.data b.data)

/-- SQL `a <= b` on text. -/
def tsLe (a b : String) : Bool := !(ordIsGt (lexCmp a.data b.data))

/-! ## Message store adapter (`handler.py`)

The SQLite database is modelled as an in-memory structure: `wa_messages` is an
append-only list, `wa_chats` an association list keyed by chat jid (the table's
primary key), `wa_config` reduced to the single `last_timestamp` key the code
uses.  NULLable columns are `Option String`. -/

structure MessageRec where
  chat : String
  sender : String
  text : String
  ts : String
  fromMe : Bool
deriving Repr, DecidableEq

structure ChatRow where
  lastTimestamp : Option String
  lastAgentTimestamp : Option String
deriving Repr, DecidableEq

structure Store where
  messages : List MessageRec
  chats : List (String × ChatRow)
  globalCursor : Option String
deriving Repr, DecidableEq

def Store.empty : Store := ⟨[], [], none⟩

/-- SQL `INSERT ... ON CONFLICT(jid) DO UPDATE`: generic upsert on the
`wa_chats` association list. -/
def upsertChat (chats : List (String × ChatRow)) (jid : String)
    (onInsert : ChatRow) (onUpdate : ChatRow → ChatRow) : List (String × ChatRow) :=
  match chats with
  | [] => [(jid, onInsert)]
  | (j, r) :: rest =>
    if j = jid then (j, onUpdate r) :: rest
    else (j, r) :: upsertChat rest jid onInsert onUpdate

/-- Embeds `store_message` (handler.py:137-151). -/
def storeMessage (st : Store) (chat sender text ts : String) (fromMe : Bool) : Store :=
  { st with messages := st.messages ++ [⟨chat, sender, text, ts, fromMe⟩] }

/-- Embeds `update_chat_timestamp` (handler.py:154-164): upsert `last_timestamp`. -/
def updateChatTimestamp (st : Store) (chat ts : String) : Store :=
  { st with
    chats := upsertChat st.chats chat ⟨some ts, none⟩
      (fun r => { r with lastTimestamp := some ts }) }

/-- Embeds `update_global_cursor` (handler.py:167-176). -/
def updateGlobalCursor (st : Store) (ts : String) : Store :=
  { st with globalCursor := some ts }

/-- Embeds `update_agent_cursor` (handler.py:179-189): upsert `last_agent_timestamp`. -/
def updateAgentCursor (st : Store) (chat ts : String) : Store :=
  { st with
    chats := upsertChat st.chats chat ⟨none, some ts⟩
      (fun r => { r with lastAgentTimestamp := some ts }) }

/-- Python truthiness on the cursor column:
`row["last_agent_timestamp"] if row and row["last_agent_timestamp"] else ""`. -/
def sinceOf (row : Option ChatRow) : String :=
  match row with
  | none => ""
  | some r =>
    match r.lastAgentTimestamp with
    | none => ""
    | some t => if t = "" then "" else t

/-- Row triple returned by `get_new_messages_for_chat`: (sender, timestamp, text). -/
abbrev MsgTri := String × String × String

/-- SQL `ORDER BY timestamp`: insertion sort on the middle component. -/
def insertTs (m : MsgTri) : List MsgTri → List MsgTri
  | [] => [m]
  | x :: xs => if tsLe m.2.1 x.2.1 then m :: x :: xs else x :: insertTs m xs

def sortByTs : List MsgTri → List MsgTri
  | [] => []
  | m :: ms => insertTs m (sortByTs ms)

/-- Embeds `get_new_messages_for_chat` (handler.py:192-211): rows of the chat with
`timestamp > last_agent_timestamp` (empty string if unset), ordered by
timestamp. -/
def getNewMessagesForChat (st : Store) (chat : String) : List MsgTri :=
  let since := sinceOf (st.chats.lookup chat)
  sortByTs ((st.messages.filter
      (fun m => m.chat = chat && tsLt since m.ts)).map
    (fun m => (m.sender, m.ts, m.text)))

/-- Sortedness by timestamp, as a pairwise relation. -/
def TsSorted (l : List MsgTri) : Prop :=
  List.Pairwise (fun a b => tsLe a.2.1 b.2.1 = true) l

/-! ## Routing table (`routing.py`)

`RoutingConfig.agents` is a Python dict keyed by agent name; dicts preserve
insertion order, so it is modelled as an ordered association list, as is
`routes`. -/

structure AgentConfig where
  name : String
  model : Option String
deriving Repr, DecidableEq

structure RoutingConfig where
  defaultAgent : String
  agents : List (String × AgentConfig)
  routes : List (String × List String)
deriving Repr, DecidableEq

/-- Embeds `RoutingConfig.agents_for_chat` (routing.py:49-56).  The dict lookups are
total in the source because `load_routing_config` only stores known names in
`routes` and always inserts the default agent; the embedding drops unknown
names, which coincides on every loadable configuration. -/
def agentsForChat (cfg : RoutingConfig) (chat : String) : List AgentConfig :=
  match cfg.routes.lookup chat with
  | some names => names.filterMap (fun n => cfg.agents.lookup n)
  | none => (cfg.agents.lookup cfg.defaultAgent).toList

/-- Embeds `RoutingConfig.is_multi_agent` (routing.py:58-60). -/
def isMultiAgent (cfg : RoutingConfig) (chat : String) : Bool :=
  match cfg.routes.lookup chat with
  | some names => decide (1 < names.length)
  | none => false

/-- Embeds `RoutingConfig.all_trigger_names` (routing.py:62-65). -/
def allTriggerNames (cfg : RoutingConfig) : List String :=
  cfg.agents.map (fun p => p.2.name)

/-- Embeds `RoutingConfig.conversation_name` (routing.py:67-72):
`wa-{agent_name_lower}-{jid}`. -/
def conversationName (a : AgentConfig) (chat : String) : String :=
  ⟨"wa-".data ++ (lowerStr a.name).data ++ "-".data ++ chat.data⟩

/-- One step of `parse_conversation`'s loop over `self.agents.values()`. -/
def parseConvGo (conv : String) : List (String × AgentConfig) → Option AgentConfig × String
  | [] => (none, "")
  | (_, ag) :: rest =>
    let p := "wa-".data ++ (lowerStr ag.name).data ++ "-".data
    if listStartsWith p conv.data then (some ag, ⟨conv.data.drop p.length⟩)
    else parseConvGo conv rest

/-- Embeds `RoutingConfig.parse_conversation` (routing.py:74-83). -/
def parseConversation (cfg : RoutingConfig) (conv : String) : Option AgentConfig × String :=
  parseConvGo conv cfg.agents

/-! ## Trigger classifier

`_is_hard_mention` / `find_hard_mentions` are imported by `connection.py` and
exercised by `tests/test_handler.py` and `tests/test_routing.py`, but the
`handler.py` in this tree is an older revision that predates them (it only
checks for a literal `@name` substring, handler.py:281). -/

/-- Is position `i` of `hay` the start of `pat`? -/
def matchAt (hay pat : List Char) (i : Nat) : Bool :=
  listStartsWith pat (hay.drop i)

/-- May the whole-word match end at position `k`?  End of string, whitespace,
or one of `,:!?`. -/
def boundaryAfterOk (hay : List Char) (k : Nat) : Bool :=
  match hay.drop k with
  | [] => true
  | c :: _ => wsChar c || c = ',' || c = ':' || c = '!' || c = '?'

/-- Backwards scan for a sentence boundary: succeed at the start of the text
or on `.`, `!`, `?` or a newline, skipping other whitespace. -/
def sentenceBack : List Char → Bool
  | [] => true
  | c :: rest =>
    if c = '.' || c = '!' || c = '?' || c = '\n' then true
    else if wsChar c then sentenceBack rest
    else false

/-- May a whole-word match start at position `i`?  Start of text, or after
`.`, `!`, `?` or a newline, with only whitespace in between. -/
def sentenceStartOk (hay : List Char) (i : Nat) : Bool :=
  sentenceBack ((hay.take i).reverse)

/-- Modelled from the spec: `_is_hard_mention(text, name)` (§4.2), absent from
the `handler.py` in this tree.  A hard mention of `name` is either a literal
`@` + case-insensitive `name` anywhere, or `name` as a whole word at the start
of the text or after sentence punctuation, terminated by end-of-string,
whitespace or `,:!?`. -/
def isHardMention (text name : String) : Bool :=
  let hay := (lowerStr text).data
  let pat := (lowerStr name).data
  (List.range (hay.length + 1)).any (fun i => matchAt hay ('@' :: pat) i)
  || (List.range (hay.length + 1)).any (fun i =>
      sentenceStartOk hay i && matchAt hay pat i && boundaryAfterOk hay (i + pat.length))

/-- Modelled from the spec: `find_hard_mentions(text, names)` (§4.2) returns
the subset of `names` hard-mentioned in `text`. -/
def findHardMentions (text : String) (names : List String) : List String :=
  names.filter (fun n => isHardMention text n)

/-- Declarative reading of the claim: either `@name` occurs at some position,
or `name` occurs whole-word at a sentence start with a word boundary after. -/
def HardMentionChar (text name : String) : Prop :=
  (∃ i ≤ (lowerStr text).data.length,
      matchAt (lowerStr text).data ('@' :: (lowerStr name).data) i = true)
  ∨ (∃ i ≤ (lowerStr text).data.length,
      sentenceStartOk (lowerStr text).data i = true
      ∧ matchAt (lowerStr text).data (lowerStr name).data i = true
      ∧ boundaryAfterOk (lowerStr text).data (i + (lowerStr name).data.length) = true)

/-! ## Inbound handler (`handler.py`, `MessageHandler.on_message`) -/

/-- Inbound event fields used by `on_message`, with the text body already run
through `extract_text` (an `Option`, `None` when no text/caption field). -/
structure InboundEvent where
  chatJid : String
  senderJid : String
  pushname : String
  fromMe : Bool
  isGroup : Bool
  ts : String
  text : Option String
deriving Repr, DecidableEq

inductive HandlerAction where
  | drop
  | flushNow (chat : String)
  | add (chat : String)
deriving Repr, DecidableEq

/-- Python `jid.split("@")[0]`. -/
def userPart (s : String) : String := ⟨s.data.takeWhile (fun c => c ≠ '@')⟩

/-- Sender display name, `info.Pushname or Jid2String(source.Sender)` (handler.py:255). -/
def senderOf (ev : InboundEvent) : String :=
  if ev.pushname = "" then ev.senderJid else ev.pushname

/-- Embeds `MessageHandler.on_message` (handler.py:242-291) for the revision in this
tree: persist, then classify with the `@trigger` substring test and the
self-chat test, returning which batch-accumulator call is made. -/
def onMessage (trigger : String) (selfJid : Option String) (st : Store)
    (ev : InboundEvent) : Store × HandlerAction :=
  if ev.chatJid = "status@broadcast" then (st, .drop)
  else
    match ev.text with
    | none => (st, .drop)
    | some t =>
      if t = "" then (st, .drop)
      else
        let st1 := storeMessage st ev.chatJid (senderOf ev) t ev.ts ev.fromMe
        let st2 := updateChatTimestamp st1 ev.chatJid ev.ts
        let st3 := updateGlobalCursor st2 ev.ts
        if ev.fromMe then (st3, .drop)
        else
          let isSelfChat :=
            match selfJid with
            | some sj => userPart ev.chatJid = userPart sj && !ev.isGroup
            | none => false
          let isHard := containsSub (lowerStr ("@" ++ trigger)).data (lowerStr t).data
          if isSelfChat || isHard then (st3, .flushNow ev.chatJid)
          else (st3, .add ev.chatJid)

/-! ## Outgoing queue (`queue.py`)

The queue is a FIFO of `(jid, text)` pairs.  The adapter is modelled by a
function `good jid text` telling whether `client.send_message` succeeds; a
`false` result is the `except Exception` path. -/

abbrev QueuedMsg := String × String

/-- Embeds `OutgoingQueue.send` (queue.py:61-87): enqueue when disconnected, else
attempt the send and enqueue on failure.  Total: every exception of the
underlying send is caught. -/
def queueSend (connected : Bool) (good : String → String → Bool)
    (q : List QueuedMsg) (jid text : String) : List QueuedMsg :=
  if !connected then q ++ [(jid, text)]
  else if good jid text then q
  else q ++ [(jid, text)]

/-- Embeds `OutgoingQueue.flush` (queue.py:89-97), fuel-indexed: the Python loop is
`while self._queue:` with each iteration popping the head and calling `send`
(which may re-append).  `none` means the loop is still running after `fuel`
iterations. -/
def flushFuel (connected : Bool) (good : String → String → Bool) :
    Nat → List QueuedMsg → Option (List QueuedMsg)
  | 0, _ => none
  | _ + 1, [] => some []
  | fuel + 1, m :: rest => flushFuel connected good fuel (queueSend connected good rest m.1 m.2)

/-! ## Reply extractor (`connection.py`, `_extract_reply`) -/

def openTag : List Char := "<reply>".data

def closeTag : List Char := "</reply>".data

/-- Python `re.findall(r"<reply>(.*?)</reply>", text, re.DOTALL)`: repeatedly find
the leftmost `<reply>`, then the nearest following `</reply>`, capture the
text in between, and continue after the close tag.  Fuel-indexed to keep the
recursion structural; `replySpans` supplies enough fuel (each iteration
consumes at least the 15 tag characters). -/
def replySpansFuel : Nat → List Char → List (List Char)
  | 0, _ => []
  | fuel + 1, cs =>
    match findSub openTag cs with
    | none => []
    | some i =>
      let rest := cs.drop (i + 7)
      match findSub closeTag rest with
      | none => []
      | some j => rest.take j :: replySpansFuel fuel (rest.drop (j + 8))

def replySpans (cs : List Char) : List (List Char) := replySpansFuel cs.length cs

/-- Embeds `_extract_reply` (connection.py:52-67): find the spans, strip each, drop
the empty ones, join with newlines, `None` when nothing is left. -/
def extractReply (text : String) : Option String :=
  let stripped := (replySpans text.data).map stripChars
  let filtered := stripped.filter (fun m => m ≠ [])
  match filtered with
  | [] => none
  | l => some ⟨joinSep '\n' l⟩

/-- The reply extractor as §4.6 words it: keep the stripped non-empty spans
(one `filterMap` pass), answer nothing when none remain, else the spans joined
by single newlines. -/
def extractReplySpec (text : String) : Option String :=
  let kept := (replySpans text.data).filterMap
    (fun m => let s := stripChars m; if s = [] then none else some s)
  if kept.isEmpty then none else some ⟨joinSep '\n' kept⟩

/-! ## Dispatch orchestrator (`connection.py`) -/

/-- The outbound decision at the end of `_dispatch_for_agent`
(connection.py:344-352): extract the reply; if truthy, apply the multi-agent
prefix and send. `none` models the "chose silence" branch. -/
def dispatchOutbound (fullText : String) (multi : Bool) (agentName : String) :
    Option String :=
  match extractReply fullText with
  | none => none
  | some t =>
    if t = "" then none
    else some (if multi then "[" ++ agentName ++ "]: " ++ t else t)

/-- Observable events of `_handle_agent_trigger`, in order: one `dispatch`
per agent (with the per-agent hard flag and whether the dispatch raised),
then the cursor advance. -/
inductive Ev where
  | dispatch (agent : String) (agentHard : Bool) (ok : Bool)
  | cursor (chat ts : String)
deriving Repr, DecidableEq

/-- The per-agent hard flag:
`hard_mention and (not mentioned_agents or agent.name in mentioned_agents)`
(connection.py:272-274). -/
def agentHardFlag (cfg : RoutingConfig) (st : Store) (chat : String)
    (hard : Bool) (a : AgentConfig) : Bool :=
  let messages := getNewMessagesForChat st chat
  let allText : String := ⟨joinSep ' ' (messages.map (fun m => m.2.2.data))⟩
  let mentioned := findHardMentions allText (allTriggerNames cfg)
  hard && (mentioned.isEmpty || mentioned.contains a.name)

/-- Embeds `WhatsAppConnection._handle_agent_trigger` (connection.py:254-291):
read the batch, dispatch to every mapped agent (each dispatch wrapped in
`try/except`, `ok` given by `dOk`), then advance the per-chat agent cursor to
the batch's last timestamp.  Returns the new store and the event trace. -/
def handleAgentTrigger (cfg : RoutingConfig) (st : Store) (chat : String)
    (hard : Bool) (dOk : String → Bool) : Store × List Ev :=
  let agents := agentsForChat cfg chat
  let messages := getNewMessagesForChat st chat
  if messages.isEmpty then (st, [])
  else
    let evs := agents.map (fun a =>
      Ev.dispatch a.name (agentHardFlag cfg st chat hard a) (dOk a.name))
    let lastTs := (messages.getLastD ("", "", "")).2.1
    if lastTs = "" then (st, evs)
    else (updateAgentCursor st chat lastTs, evs ++ [Ev.cursor chat lastTs])

/-! ## Delivery poller (`connection.py`) -/

/-- Embeds `_process_pending_deliveries` (connection.py:383-385): scan each store in
turn; an exception from a scan propagates out of the `for` loop.  Returns the
stores whose scan was attempted and the propagated error, if any.  The caller
`_delivery_poll_loop` (connection.py:357-367) catches and logs that error, so
a tick never propagates it further. -/
def scanStores (scan : Nat → Except String Unit) : List Nat → List Nat × Option String
  | [] => ([], none)
  | d :: ds =>
    match scan d with
    | .ok _ =>
      let r := scanStores scan ds
      (d :: r.1, r.2)
    | .error e => ([d], some e)

inductive DeliveryStatus where
  | pending
  | delivered
  | failed (err : String)
deriving Repr, DecidableEq

structure Delivery where
  id : Nat
  conversation : String
  message : String
deriving Repr, DecidableEq

/-- Python `str.removeprefix`. -/
def stripLeading (p s : String) : String :=
  if listStartsWith p.data s.data then ⟨s.data.drop p.data.length⟩ else s

/-- The `(agent, chat)` resolution at the top of the per-delivery loop in
`_process_deliveries_from_db` (connection.py:392-399), with the legacy
`wa-{jid}` fallback. -/
def resolveDelivery (cfg : RoutingConfig) (conv : String) : Option AgentConfig × String :=
  let r := parseConversation cfg conv
  if r.1.isNone || r.2 = "" then
    ((cfg.agents.lookup cfg.defaultAgent), stripLeading "wa-" conv)
  else r

/-- One iteration of the delivery loop in `_process_deliveries_from_db`
(connection.py:403-417).  `jidOf` models `_build_jid`, the only fallible step
before the send (`none` = raises); `queueSend` itself is total, so the
`except` branch marking the delivery failed is reachable only from `jidOf`. -/
def processOneDelivery (cfg : RoutingConfig) (jidOf : String → Option String)
    (connected : Bool) (good : String → String → Bool)
    (q : List QueuedMsg) (d : Delivery) : List QueuedMsg × DeliveryStatus :=
  let r := resolveDelivery cfg d.conversation
  let chat := r.2
  match jidOf chat with
  | none => (q, .failed "send failed")
  | some jid =>
    let msg :=
      match r.1 with
      | some a => if isMultiAgent cfg chat then "[" ++ a.name ++ "]: " ++ d.message else d.message
      | none => d.message
    (queueSend connected good q jid msg, .delivered)

/-! ## Cursor invariant -/

/-- Order on nullable cursors, an unset cursor counting as the minimum. -/
def optLeB : Option String → Option String → Bool
  | none, _ => true
  | some _, none => false
  | some a, some b => tsLe a b

/-- Invariant `last_agent_timestamp ≤ last_timestamp` on every chat row. -/
def StoreInv (st : Store) : Prop :=
  ∀ p ∈ st.chats, optLeB p.2.lastAgentTimestamp p.2.lastTimestamp = true

instance (st : Store) : Decidable (StoreInv st) := by
  unfold StoreInv
  infer_instance

/-- Agent cursor of a chat as stored, `none` when the row is missing. -/
def agentCursorOf (st : Store) (chat : String) : Option String :=
  (st.chats.lookup chat).bind (fun r => r.lastAgentTimestamp)

/-- Ingestion cursor of a chat as stored, `none` when the row is missing. -/
def lastTimestampOf (st : Store) (chat : String) : Option String :=
  (st.chats.lookup chat).bind (fun r => r.lastTimestamp)

/-! ## Concrete fixtures used by counterexamples and witnesses -/

def exAgentA : AgentConfig := ⟨"A", none⟩

def exAgentAB : AgentConfig := ⟨"A-B", none⟩

/-- Routing configuration whose agent names collide after lowercasing with a
hyphen: `wa-a-` prefixes `wa-a-b-…`. -/
def cfgCollide : RoutingConfig :=
  ⟨"A", [("A", exAgentA), ("A-B", exAgentAB)], []⟩

def exRessu : AgentConfig := ⟨"Ressu", none⟩

def exTyko : AgentConfig := ⟨"Tyko", some "claude-opus-4-6"⟩

def cfgMulti : RoutingConfig :=
  ⟨"Ressu", [("Ressu", exRessu), ("Tyko", exTyko)],
   [("group-multi@g.us", ["Ressu", "Tyko"]), ("group-tyko@g.us", ["Tyko"])]⟩

def exStore : Store :=
  ⟨[⟨"c@g.us", "Bob", "hello", "2024-01-01T12:00:00+00:00", false⟩],
   [("c@g.us", ⟨some "2024-01-01T12:00:00+00:00", none⟩)], none⟩

/-- An inbound event sent by the account itself. -/
def evFromMe : InboundEvent :=
  ⟨"123@s.whatsapp.net", "55@s.whatsapp.net", "User", true, false,
   "2024-01-01T00:00:00+00:00", some "My own message"⟩

/-- A store scan that raises on store 1 and succeeds elsewhere. -/
def scanBoom : Nat → Except String Unit :=
  fun d => if d = 1 then .error "boom" else .ok ()

def exDelivery : Delivery := ⟨7, "wa-ressu-123@s.whatsapp.net", "task done"⟩

theorem listStartsWith_append (p r : List Char) : listStartsWith p (p ++ r) = true := by
  induction p with
  | nil => rfl
  | cons c cs ih => simp [listStartsWith, ih]

theorem listStartsWith_length {p l : List Char} (h : listStartsWith p l = true) :
    p.length ≤ l.length := by
  induction p generalizing l with
  | nil => exact Nat.zero_le _
  | cons c cs ih =>
    cases l with
    | nil => simp [listStartsWith] at h
    | cons d ds =>
      simp only [listStartsWith, Bool.and_eq_true] at h
      simpa [List.length_cons, Nat.succ_le_succ_iff] using ih h.2

theorem findSub_bound {pat l : List Char} {i : Nat} (h : findSub pat l = some i) :
    pat.length + i ≤ l.length := by
  induction l generalizing i with
  | nil =>
    simp only [findSub] at h
    split at h
    · next hs =>
      cases h
      simpa using listStartsWith_length hs
    · exact absurd h (by simp)
  | cons c cs ih =>
    simp only [findSub] at h
    split at h
    · next hs =>
      cases h
      simpa using listStartsWith_length hs
    · next =>
      cases hrec : findSub pat cs with
      | none => simp [hrec] at h
      | some j =>
        simp only [hrec, Option.map_some'] at h
        cases h
        have := ih hrec
        simp only [List.length_cons]
        omega

theorem ordIsGt_eq_false {o : Ordering} : ordIsGt o = false ↔ o ≠ .gt := by
  cases o <;> simp [ordIsGt]

theorem ordIsLt_eq_true {o : Ordering} : ordIsLt o = true ↔ o = .lt := by
  cases o <;> simp [ordIsLt]

theorem lexCmp_self (l : List Char) : lexCmp l l = .eq := by
  induction l with
  | nil => rfl
  | cons c cs ih => simp [lexCmp, lt_irrefl, ih]

theorem lexCmp_swap (a b : List Char) : lexCmp b a = (lexCmp a b).swap := by
  induction a generalizing b with
  | nil => cases b <;> rfl
  | cons x xs ih =>
    cases b with
    | nil => rfl
    | cons y ys =>
      by_cases hxy : x < y
      · have : ¬ y < x := lt_asymm hxy
        simp [lexCmp, hxy, this, Ordering.swap]
      · by_cases hyx : y < x
        · simp [lexCmp, hxy, hyx, Ordering.swap]
        · simp [lexCmp, hxy, hyx, ih]

theorem lexCmp_eq_of_heads {x y : Char} (hxy : ¬ x < y) (hyx : ¬ y < x) : x = y :=
  le_antisymm (le_of_not_lt hyx) (le_of_not_lt hxy)

theorem lexCmp_trans_ne_gt {a b c : List Char}
    (h₁ : lexCmp a b ≠ .gt) (h₂ : lexCmp b c ≠ .gt) : lexCmp a c ≠ .gt := by
  induction a generalizing b c with
  | nil => cases c <;> simp [lexCmp]
  | cons x xs ih =>
    cases b with
    | nil => simp [lexCmp] at h₁
    | cons y ys =>
      cases c with
      | nil => simp [lexCmp] at h₂
      | cons z zs =>
        simp only [lexCmp] at h₁ h₂ ⊢
        by_cases hxy : x < y
        · -- x < y; combined with y ≤ z we get x < z
          by_cases hyz : y < z
          · simp [lt_trans hxy hyz]
          · by_cases hzy : z < y
            · simp [lexCmp, hyz, hzy] at h₂
            · have : y = z := lexCmp_eq_of_heads hyz hzy
              simp [this ▸ hxy]
        · by_cases hyx : y < x
          · simp [hxy, hyx] at h₁
          · have hxey : x = y := lexCmp_eq_of_heads hxy hyx
            subst hxey
            by_cases hxz : x < z
            · simp [hxz]
            · by_cases hzx : z < x
              · simp [hxz, hzx] at h₂
              · simp only [if_neg hxz, if_neg hzx]
                simp only [if_neg hxy, if_neg hyx] at h₁
                simp only [if_neg hxz, if_neg hzx] at h₂
                exact ih h₁ h₂

theorem tsLe_refl (a : String) : tsLe a a = true := by
  simp [tsLe, lexCmp_self, ordIsGt]

theorem tsLe_trans {a b c : String} (h₁ : tsLe a b = true) (h₂ : tsLe b c = true) :
    tsLe a c = true := by
  simp only [tsLe, Bool.not_eq_true', ordIsGt_eq_false] at h₁ h₂ ⊢
  exact lexCmp_trans_ne_gt h₁ h₂

theorem tsLe_of_not_tsLe {a b : String} (h : ¬ tsLe a b = true) : tsLe b a = true := by
  have hgt : lexCmp a.data b.data = .gt := by
    by_contra hne
    apply h
    simp only [tsLe, Bool.not_eq_true', ordIsGt_eq_false]
    exact hne
  simp only [tsLe, Bool.not_eq_true', ordIsGt_eq_false]
  rw [lexCmp_swap, hgt]
  simp [Ordering.swap]

theorem tsLe_of_tsLt {a b : String} (h : tsLt a b = true) : tsLe a b = true := by
  simp only [tsLt, ordIsLt_eq_true] at h
  simp [tsLe, h, ordIsGt]

/-- Nothing is SQL-below the empty string. -/
theorem not_tsLt_nil (s : String) : tsLt s "" = false := by
  have h : lexCmp s.data [] ≠ .lt := by
    cases s.data <;> simp [lexCmp]
  simp only [tsLt]
  cases hcc : lexCmp s.data [] with
  | lt => exact absurd hcc h
  | eq => rfl
  | gt => rfl

theorem tsLt_ne_nil {since ts : String} (h : tsLt since ts = true) : ts ≠ "" := by
  intro hts
  rw [hts, not_tsLt_nil] at h
  cases h

/-! ### Sorting lemmas -/

theorem mem_insertTs {a m : MsgTri} {l : List MsgTri} :
    a ∈ insertTs m l ↔ a = m ∨ a ∈ l := by
  induction l with
  | nil => simp [insertTs]
  | cons x xs ih =>
    simp only [insertTs]
    split
    · simp
    · simp only [List.mem_cons, ih]
      tauto

theorem mem_sortByTs {a : MsgTri} {l : List MsgTri} : a ∈ sortByTs l ↔ a ∈ l := by
  induction l with
  | nil => simp [sortByTs]
  | cons x xs ih => simp [sortByTs, mem_insertTs, ih]

theorem sortByTs_eq_nil {l : List MsgTri} : sortByTs l = [] ↔ l = [] := by
  cases l with
  | nil => simp [sortByTs]
  | cons x xs =>
    simp only [sortByTs]
    constructor
    · intro h
      have : x ∈ insertTs x (sortByTs xs) := mem_insertTs.mpr (Or.inl rfl)
      rw [h] at this
      cases this
    · intro h
      cases h

theorem tsSorted_insertTs {m : MsgTri} {l : List MsgTri} (h : TsSorted l) :
    TsSorted (insertTs m l) := by
  induction l with
  | nil => simp [insertTs, TsSorted]
  | cons x xs ih =>
    simp only [insertTs]
    split
    · next hle =>
      refine List.Pairwise.cons ?_ h
      intro b hb
      rcases List.mem_cons.mp hb with rfl | hbx
      · exact hle
      · exact tsLe_trans hle ((List.pairwise_cons.mp h).1 b hbx)
    · next hnle =>
      have hxm : tsLe x.2.1 m.2.1 = true := tsLe_of_not_tsLe (by simpa using hnle)
      rcases List.pairwise_cons.mp h with ⟨hx, hxs⟩
      refine List.Pairwise.cons ?_ (ih hxs)
      intro b hb
      rcases mem_insertTs.mp hb with rfl | hbxs
      · exact hxm
      · exact hx b hbxs

theorem tsSorted_sortByTs (l : List MsgTri) : TsSorted (sortByTs l) := by
  induction l with
  | nil => simp [sortByTs, TsSorted]
  | cons x xs ih => exact tsSorted_insertTs ih

theorem getLastD_mem {l : List MsgTri} (h : l ≠ []) (d : MsgTri) : l.getLastD d ∈ l := by
  induction l generalizing d with
  | nil => exact absurd rfl h
  | cons x xs ih =>
    rw [List.getLastD_cons]
    cases xs with
    | nil => simp
    | cons y ys => exact List.mem_cons_of_mem _ (ih (by simp) x)

theorem getLastD_is_max {l : List MsgTri} (hs : TsSorted l) (d : MsgTri) :
    ∀ a ∈ l, tsLe a.2.1 (l.getLastD d).2.1 = true := by
  induction l generalizing d with
  | nil => intro a ha; cases ha
  | cons x xs ih =>
    intro a ha
    rw [List.getLastD_cons]
    rcases List.pairwise_cons.mp hs with ⟨hx, hxs⟩
    rcases List.mem_cons.mp ha with rfl | haxs
    · cases xs with
      | nil => simp [tsLe_refl]
      | cons y ys => exact hx _ (getLastD_mem (by simp) a)
    · exact ih hxs x a haxs

/-- Every triple produced by `get_new_messages_for_chat` satisfies the SQL
`WHERE` clause; in particular its timestamp is above the cursor. -/
theorem getNewMessages_ts_above {st : Store} {chat : String} {a : MsgTri}
    (h : a ∈ getNewMessagesForChat st chat) :
    tsLt (sinceOf (st.chats.lookup chat)) a.2.1 = true := by
  simp only [getNewMessagesForChat] at h
  rw [mem_sortByTs] at h
  rcases List.mem_map.mp h with ⟨m, hm, rfl⟩
  rcases List.mem_filter.mp hm with ⟨_, hcond⟩
  simp only [Bool.and_eq_true] at hcond
  exact hcond.2

theorem getNewMessages_sorted (st : Store) (chat : String) :
    TsSorted (getNewMessagesForChat st chat) := by
  simp only [getNewMessagesForChat]
  exact tsSorted_sortByTs _

theorem replySpansFuel_open_none {fuel : Nat} {cs : List Char}
    (h : findSub openTag cs = none) : replySpansFuel (fuel + 1) cs = [] := by
  simp [replySpansFuel, h]

theorem replySpansFuel_close_none {fuel : Nat} {cs : List Char} {i : Nat}
    (hop : findSub openTag cs = some i)
    (hcl : findSub closeTag (cs.drop (i + 7)) = none) :
    replySpansFuel (fuel + 1) cs = [] := by
  simp [replySpansFuel, hop, hcl]

theorem replySpansFuel_step {fuel : Nat} {cs : List Char} {i j : Nat}
    (hop : findSub openTag cs = some i)
    (hcl : findSub closeTag (cs.drop (i + 7)) = some j) :
    replySpansFuel (fuel + 1) cs =
      (cs.drop (i + 7)).take j :: replySpansFuel fuel ((cs.drop (i + 7)).drop (j + 8)) := by
  simp [replySpansFuel, hop, hcl]

/-- The fuel is irrelevant as long as it dominates the input length, so
`replySpans` computes the total Python scan. -/
theorem replySpansFuel_congr :
    ∀ (f₁ f₂ : Nat) (cs : List Char), cs.length ≤ f₁ → cs.length ≤ f₂ →
      replySpansFuel f₁ cs = replySpansFuel f₂ cs := by
  intro f₁
  induction f₁ using Nat.strong_induction_on with
  | _ f₁ ih =>
    intro f₂ cs h₁ h₂
    match f₁, f₂ with
    | 0, f₂ =>
      have : cs = [] := List.length_eq_zero.mp (Nat.le_zero.mp h₁)
      subst this
      cases f₂ with
      | zero => rfl
      | succ f => exact (replySpansFuel_open_none (by rfl)).symm
    | f + 1, 0 =>
      have : cs = [] := List.length_eq_zero.mp (Nat.le_zero.mp h₂)
      subst this
      exact replySpansFuel_open_none (by rfl)
    | f + 1, g + 1 =>
      cases hop : findSub openTag cs with
      | none => rw [replySpansFuel_open_none hop, replySpansFuel_open_none hop]
      | some i =>
        cases hcl : findSub closeTag (cs.drop (i + 7)) with
        | none => rw [replySpansFuel_close_none hop hcl, replySpansFuel_close_none hop hcl]
        | some j =>
          rw [replySpansFuel_step hop hcl, replySpansFuel_step hop hcl]
          have hbop := findSub_bound hop
          have hbcl := findSub_bound hcl
          simp only [openTag, closeTag] at hbop hbcl
          rw [List.length_drop] at hbcl
          have hlen : ((cs.drop (i + 7)).drop (j + 8)).length ≤ f := by
            rw [List.length_drop, List.length_drop]
            simp only [List.length_cons] at hbop hbcl
            omega
          have hlen' : ((cs.drop (i + 7)).drop (j + 8)).length ≤ g := by
            rw [List.length_drop, List.length_drop]
            simp only [List.length_cons] at hbop hbcl
            omega
          rw [ih f (Nat.lt_succ_self f) g _ hlen hlen']

/-! ## C1: the per-chat cursor invariant -/

theorem lookup_upsertChat_self (chats : List (String × ChatRow)) (jid : String)
    (ins : ChatRow) (upd : ChatRow → ChatRow) :
    (upsertChat chats jid ins upd).lookup jid =
      some (match chats.lookup jid with
            | none => ins
            | some r => upd r) := by
  induction chats with
  | nil => simp [upsertChat, List.lookup]
  | cons p rest ih =>
    obtain ⟨j, r⟩ := p
    by_cases hj : j = jid
    · subst hj
      simp [upsertChat, List.lookup]
    · have hne : (jid == j) = false := by
        simp [beq_eq_false_iff_ne]
        exact fun h => hj h.symm
      simp [upsertChat, hj, List.lookup, hne, ih]

theorem upsertChat_preserves {chats : List (String × ChatRow)} {jid : String}
    {ins : ChatRow} {upd : ChatRow → ChatRow}
    (hall : ∀ p ∈ chats, optLeB p.2.lastAgentTimestamp p.2.lastTimestamp = true)
    (hins : chats.lookup jid = none → optLeB ins.lastAgentTimestamp ins.lastTimestamp = true)
    (hupd : ∀ r, chats.lookup jid = some r →
      optLeB r.lastAgentTimestamp r.lastTimestamp = true →
      optLeB (upd r).lastAgentTimestamp (upd r).lastTimestamp = true) :
    ∀ p ∈ upsertChat chats jid ins upd, optLeB p.2.lastAgentTimestamp p.2.lastTimestamp = true := by
  induction chats with
  | nil =>
    intro p hp
    have hpe : p = (jid, ins) := by simpa [upsertChat] using hp
    rw [hpe]
    exact hins rfl
  | cons q rest ih =>
    obtain ⟨j, r⟩ := q
    intro p hp
    by_cases hj : j = jid
    · subst hj
      have hp' : p = (j, upd r) ∨ p ∈ rest := by
        simpa [upsertChat] using hp
      rcases hp' with hpe | hpm
      · rw [hpe]
        exact hupd r (by simp [List.lookup]) (hall (j, r) (by simp))
      · exact hall p (List.mem_cons_of_mem _ hpm)
    · have hne : (jid == j) = false := by
        simp only [beq_eq_false_iff_ne, ne_eq]
        exact fun h => hj h.symm
      have hp' : p = (j, r) ∨ p ∈ upsertChat rest jid ins upd := by
        simpa [upsertChat, hj] using hp
      rcases hp' with hpe | hpm
      · rw [hpe]
        exact hall (j, r) (by simp)
      · refine ih (fun x hx => hall x (List.mem_cons_of_mem _ hx)) ?_ ?_ p hpm
        · intro hl
          exact hins (by simp [List.lookup, hne, hl])
        · intro r' hl hr'
          exact hupd r' (by simp [List.lookup, hne, hl]) hr'

/-- C1, counterexample: `update_agent_cursor` for a chat with no existing row
creates a row whose `last_agent_timestamp` exceeds its unset `last_timestamp`,
so the operation does not preserve the invariant there. -/
theorem updateAgentCursor_missing_row_violates_invariant :
    StoreInv Store.empty ∧
    ¬ StoreInv (updateAgentCursor Store.empty "c@g.us" "2024-01-01T00:00:00+00:00") := by
  constructor
  · decide
  · decide

/-- C1 (amended): every store operation preserves
`last_agent_timestamp ≤ last_timestamp` (unset = minimum) provided
`update_chat_timestamp` is called with a timestamp at least the chat's current
agent cursor and `update_agent_cursor` with a timestamp at most the chat's
current (set) `last_timestamp` — the call discipline of the inbound handler and
the dispatch orchestrator.  Unconditional preservation, as originally claimed,
fails (see the counterexample). -/
theorem store_ops_preserve_cursor_invariant :
    (∀ (st : Store) (chat sender text ts : String) (b : Bool), StoreInv st →
      StoreInv (storeMessage st chat sender text ts b))
    ∧ (∀ (st : Store) (ts : String), StoreInv st → StoreInv (updateGlobalCursor st ts))
    ∧ (∀ (st : Store) (chat ts : String), StoreInv st →
        optLeB (agentCursorOf st chat) (some ts) = true →
        StoreInv (updateChatTimestamp st chat ts))
    ∧ (∀ (st : Store) (chat ts : String), StoreInv st →
        optLeB (some ts) (lastTimestampOf st chat) = true →
        StoreInv (updateAgentCursor st chat ts)) := by
  refine ⟨?_, ?_, ?_, ?_⟩
  · intro st chat sender text ts b h
    exact h
  · intro st ts h
    exact h
  · intro st chat ts h hle
    intro p hp
    refine upsertChat_preserves h ?_ ?_ p hp
    · intro _
      rfl
    · intro r hl hr
      simp only [agentCursorOf] at hle
      rw [hl] at hle
      exact hle
  · intro st chat ts h hle
    intro p hp
    refine upsertChat_preserves h ?_ ?_ p hp
    · intro hl
      simp only [lastTimestampOf] at hle
      rw [hl] at hle
      have hfalse : (false : Bool) = true := hle
      cases hfalse
    · intro r hl hr
      simp only [lastTimestampOf] at hle
      rw [hl] at hle
      exact hle

/-- C1, witness: the amended preservation statements applied at concrete
stores and timestamps. -/
theorem store_ops_preserve_cursor_invariant_witness :
    StoreInv (storeMessage exStore "c@g.us" "Bob" "hi" "2024-01-01T12:01:00+00:00" false)
    ∧ StoreInv (updateGlobalCursor exStore "2024-01-01T12:01:00+00:00")
    ∧ StoreInv (updateChatTimestamp exStore "c@g.us" "2024-01-01T12:01:00+00:00")
    ∧ StoreInv (updateAgentCursor exStore "c@g.us" "2024-01-01T12:00:00+00:00") :=
  ⟨store_ops_preserve_cursor_invariant.1 exStore _ _ _ _ _ (by decide),
   store_ops_preserve_cursor_invariant.2.1 exStore _ (by decide),
   store_ops_preserve_cursor_invariant.2.2.1 exStore _ _ (by decide) (by decide),
   store_ops_preserve_cursor_invariant.2.2.2 exStore _ _ (by decide) (by decide)⟩

/-! ## C2: the flush callback dispatches to every agent, then advances the cursor -/

theorem lookup_updateAgentCursor (st : Store) (chat ts : String) :
    ((updateAgentCursor st chat ts).chats.lookup chat).map
      (fun r => r.lastAgentTimestamp) = some (some ts) := by
  simp only [updateAgentCursor]
  rw [lookup_upsertChat_self]
  cases st.chats.lookup chat <;> rfl

/-- C2: for a non-empty batch, the flush callback's trace is one dispatch per
mapped agent — regardless of which dispatches raise — followed by the cursor
advance, and the stored agent cursor afterwards is the batch's maximum
timestamp. -/
theorem agent_trigger_dispatches_all_then_advances_cursor
    (cfg : RoutingConfig) (st : Store) (chat : String) (hard : Bool)
    (dOk : String → Bool)
    (hne : getNewMessagesForChat st chat ≠ []) :
    ∃ mts,
      (handleAgentTrigger cfg st chat hard dOk).2 =
        ((agentsForChat cfg chat).map (fun a =>
          Ev.dispatch a.name (agentHardFlag cfg st chat hard a) (dOk a.name)))
        ++ [Ev.cursor chat mts]
      ∧ ((handleAgentTrigger cfg st chat hard dOk).1.chats.lookup chat).map
          (fun r => r.lastAgentTimestamp) = some (some mts)
      ∧ mts ∈ (getNewMessagesForChat st chat).map (fun m => m.2.1)
      ∧ (∀ m ∈ getNewMessagesForChat st chat, tsLe m.2.1 mts = true) := by
  have hlastMem : (getNewMessagesForChat st chat).getLastD ("", "", "") ∈
      getNewMessagesForChat st chat := getLastD_mem hne _
  have habove := getNewMessages_ts_above hlastMem
  have hlastNe : ((getNewMessagesForChat st chat).getLastD ("", "", "")).2.1 ≠ "" :=
    tsLt_ne_nil habove
  refine ⟨((getNewMessagesForChat st chat).getLastD ("", "", "")).2.1, ?_, ?_, ?_, ?_⟩
  · simp only [handleAgentTrigger, List.isEmpty_eq_true, if_neg hne, if_neg hlastNe]
  · simp only [handleAgentTrigger, List.isEmpty_eq_true, if_neg hne, if_neg hlastNe]
    exact lookup_updateAgentCursor st chat _
  · exact List.mem_map_of_mem _ hlastMem
  · exact getLastD_is_max (getNewMessages_sorted st chat) _

/-- C2, witness: the theorem applied to a store holding one unread message. -/
theorem agent_trigger_advances_cursor_witness :
    ∃ mts,
      (handleAgentTrigger cfgMulti exStore "c@g.us" false (fun _ => false)).2 =
        ((agentsForChat cfgMulti "c@g.us").map (fun a =>
          Ev.dispatch a.name (agentHardFlag cfgMulti exStore "c@g.us" false a) false))
        ++ [Ev.cursor "c@g.us" mts]
      ∧ ((handleAgentTrigger cfgMulti exStore "c@g.us" false (fun _ => false)).1.chats.lookup
          "c@g.us").map (fun r => r.lastAgentTimestamp) = some (some mts)
      ∧ mts ∈ (getNewMessagesForChat exStore "c@g.us").map (fun m => m.2.1)
      ∧ (∀ m ∈ getNewMessagesForChat exStore "c@g.us", tsLe m.2.1 mts = true) :=
  agent_trigger_dispatches_all_then_advances_cursor cfgMulti exStore "c@g.us" false
    (fun _ => false) (by decide)

/-! ## C3: hard-mention classification -/

/-- C3: a message is a hard mention of trigger name `N` iff `@N` occurs
case-insensitively anywhere, or `N` occurs case-insensitively as a whole word
at the start of the text or after `.`, `!`, `?` or a newline (whitespace
allowed in between) terminated by end-of-string, whitespace or `,:!?` —
verified against the declarative reading of the pattern and against the unit
vectors fixed by `tests/test_handler.py` and `tests/test_routing.py`:
bare mid-sentence names and superstring matches such as "Andyman" are not
hard mentions. -/
theorem hard_mention_classification :
    (∀ text name : String, isHardMention text name = true ↔ HardMentionChar text name)
    ∧ isHardMention "@Andy" "Andy" = true
    ∧ isHardMention "hey @andy!" "Andy" = true
    ∧ isHardMention "Andy what?" "Andy" = true
    ∧ isHardMention "Andy, hi" "Andy" = true
    ∧ isHardMention "andy: yo" "Andy" = true
    ∧ isHardMention "Ok. Andy check this" "Andy" = true
    ∧ isHardMention "line one\nAndy here?" "Andy" = true
    ∧ isHardMention "wait! Andy" "Andy" = true
    ∧ isHardMention "really? Andy!" "Andy" = true
    ∧ isHardMention "I told Andy about it" "Andy" = false
    ∧ isHardMention "Andyman is here" "Andy" = false
    ∧ isHardMention "What Andy said was interesting" "Andy" = false
    ∧ findHardMentions "@Tyko what do you think?" ["Ressu", "Tyko"] = ["Tyko"]
    ∧ findHardMentions "@Ressu and @Tyko check this" ["Ressu", "Tyko"] = ["Ressu", "Tyko"]
    ∧ findHardMentions "Hello everyone" ["Ressu", "Tyko"] = [] := by
  refine ⟨?_, by decide, by decide, by decide, by decide, by decide, by decide, by decide,
    by decide, by decide, by decide, by decide, by decide, by decide, by decide, by decide⟩
  intro text name
  simp only [isHardMention, HardMentionChar, Bool.or_eq_true, List.any_eq_true,
    List.mem_range, Nat.lt_succ_iff, Bool.and_eq_true]
  constructor
  · rintro (⟨i, hi, hm⟩ | ⟨i, hi, ⟨hs, hm⟩, hb⟩)
    · exact Or.inl ⟨i, hi, hm⟩
    · exact Or.inr ⟨i, hi, hs, hm, hb⟩
  · rintro (⟨i, hi, hm⟩ | ⟨i, hi, hs, hm, hb⟩)
    · exact Or.inl ⟨i, hi, hm⟩
    · exact Or.inr ⟨i, hi, ⟨hs, hm⟩, hb⟩

/-! ## C4: the flush loop under persistent send failure -/

theorem flushFuel_fail_ne_nil (fuel : Nat) (q : List QueuedMsg) (hq : q ≠ []) :
    flushFuel true (fun _ _ => false) fuel q = none := by
  induction fuel generalizing q with
  | zero => rfl
  | succ fuel ih =>
    cases q with
    | nil => exact absurd rfl hq
    | cons m rest =>
      simp only [flushFuel, queueSend, Bool.not_true, if_neg, if_false]
      exact ih (rest ++ [m]) (by simp)

/-- C4: `flush` is `while self._queue:` with no snapshot bound, and a failed
send re-enqueues the popped message, so with a connected client whose
`send_message` always raises the loop never terminates — for every fuel the
loop is still running, instead of popping-and-sending once per message present
at entry and returning. -/
theorem flush_never_terminates_on_persistent_send_failure :
    ∀ fuel : Nat,
      flushFuel true (fun _ _ => false) fuel [("123@s.whatsapp.net", "hello")] = none :=
  fun fuel => flushFuel_fail_ne_nil fuel _ (by decide)

/-! ## C5: the reply extractor -/

theorem filter_map_stripChars (l : List (List Char)) :
    (l.map stripChars).filter (fun m => m ≠ []) =
      l.filterMap (fun m => if stripChars m = [] then none else some (stripChars m)) := by
  induction l with
  | nil => rfl
  | cons x xs ih =>
    simp only [ne_eq, decide_not] at ih ⊢
    by_cases hx : stripChars x = []
    · simp [hx, List.filter, List.filterMap, ih]
    · simp [hx, List.filter, List.filterMap, ih]

/-- C5: the reply extractor agrees with the spec's description — the contents
of the ungreedy, case-sensitive, newline-spanning `<reply>…</reply>` spans,
each stripped, empty spans dropped, joined by single newlines, and nothing
when no non-empty span remains — and on the spec's worked example it discards
everything outside the tags. -/
theorem extract_reply_follows_spec :
    (∀ s : String, extractReply s = extractReplySpec s)
    ∧ extractReply "thinking...\n<reply>Answer</reply>\nmore thinking" = some "Answer"
    ∧ extractReply "<reply>First</reply>x<reply>Second</reply>" = some "First\nSecond"
    ∧ extractReply "<reply>  A \n</reply>" = some "A"
    ∧ extractReply "<reply>   \n  </reply>" = none
    ∧ extractReply "plain text" = none
    ∧ extractReply "<REPLY>A</REPLY>" = none
    ∧ extractReply "<reply>Line 1\nLine 2</reply>" = some "Line 1\nLine 2"
    ∧ extractReply "<reply>  </reply><reply>B</reply>" = some "B" := by
  refine ⟨?_, by decide, by decide, by decide, by decide, by decide, by decide,
    by decide, by decide⟩
  intro s
  simp only [extractReply, extractReplySpec, filter_map_stripChars]
  cases h : (replySpans s.data).filterMap
      (fun m => if stripChars m = [] then none else some (stripChars m)) with
  | nil => rfl
  | cons x xs => rfl

/-! ## C6: conversation-name round trip -/

theorem parseConvGo_cons (conv k : String) (ag : AgentConfig)
    (rest : List (String × AgentConfig)) :
    parseConvGo conv ((k, ag) :: rest) =
      (if listStartsWith ("wa-".data ++ (lowerStr ag.name).data ++ "-".data) conv.data
       then (some ag,
         ⟨conv.data.drop ("wa-".data ++ (lowerStr ag.name).data ++ "-".data).length⟩)
       else parseConvGo conv rest) := rfl

/-- The parse loop skips agents whose prefix does not match. -/
theorem parseConvGo_skip (conv : String) (pre rest : List (String × AgentConfig))
    (hpre : ∀ p ∈ pre,
      listStartsWith ("wa-".data ++ (lowerStr p.2.name).data ++ "-".data) conv.data = false) :
    parseConvGo conv (pre ++ rest) = parseConvGo conv rest := by
  induction pre with
  | nil => rfl
  | cons q qre ih =>
    obtain ⟨k, ag⟩ := q
    have hq := hpre (k, ag) (by simp)
    rw [List.cons_append, parseConvGo_cons, if_neg (by simpa using hq)]
    exact ih (fun p hp => hpre p (List.mem_cons_of_mem _ hp))

/-- C6, counterexample: with agents `A` and `A-B` (in that order), the
conversation name built for `A-B` and chat `c@g.us` is `wa-a-b-c@g.us`, which
`parse_conversation` resolves to agent `A` with chat `b-c@g.us`, not back to
`(A-B, c@g.us)`. -/
theorem parse_conversation_roundtrip_fails_on_prefix_collision :
    ("A-B", exAgentAB) ∈ cfgCollide.agents
    ∧ parseConversation cfgCollide (conversationName exAgentAB "c@g.us")
        = (some exAgentA, "b-c@g.us")
    ∧ parseConversation cfgCollide (conversationName exAgentAB "c@g.us")
        ≠ (some exAgentAB, "c@g.us") := by
  refine ⟨by decide, by decide, by decide⟩

/-- C6 (amended): parsing the conversation name built for `(a, x)` returns
exactly `(a, x)` provided no agent listed before `a` in the configuration has
a prefix `wa-{lower(name)}-` that starts the built name (in particular,
whenever lowercased agent names are hyphen-free and pairwise distinct).  With
a collision the first matching agent wins (see the counterexample). -/
theorem conversation_name_roundtrip (cfg : RoutingConfig) (a : AgentConfig) (x k : String)
    (pre post : List (String × AgentConfig))
    (hagents : cfg.agents = pre ++ (k, a) :: post)
    (hpre : ∀ p ∈ pre,
      listStartsWith ("wa-".data ++ (lowerStr p.2.name).data ++ "-".data)
        (conversationName a x).data = false) :
    parseConversation cfg (conversationName a x) = (some a, x) := by
  simp only [parseConversation, hagents]
  rw [parseConvGo_skip _ _ _ hpre]
  have hdata : (conversationName a x).data =
      ("wa-".data ++ (lowerStr a.name).data ++ "-".data) ++ x.data := by
    simp [conversationName]
  rw [parseConvGo_cons, hdata, if_pos (listStartsWith_append _ _), List.drop_left]

/-- C6, witness: the round trip at a collision-free configuration. -/
theorem conversation_name_roundtrip_witness :
    parseConversation cfgMulti (conversationName exTyko "123@g.us") = (some exTyko, "123@g.us") :=
  conversation_name_roundtrip cfgMulti exTyko "123@g.us" "Tyko"
    [("Ressu", exRessu)] [] (by decide) (by decide)

/-! ## C7: delivery-poll failure isolation -/

/-- C7, counterexample: with two stores where scanning the first raises, the
second store is not scanned in that tick — `_process_pending_deliveries` has no
per-store `try/except`, only the poll loop's tick-level one. -/
theorem delivery_scan_failure_skips_remaining_stores :
    scanStores scanBoom [1, 2] = ([1], some "boom")
    ∧ 2 ∉ (scanStores scanBoom [1, 2]).1 := by
  refine ⟨by decide, by decide⟩

/-- C7 (amended): an exception while scanning one store's pending deliveries
is caught and logged by the poll loop (the tick returns it instead of
propagating), the stores before the failing one have been scanned, and the
stores after it are skipped for that tick; a tick whose scans all succeed
scans every store. -/
theorem delivery_scan_failure_isolated_to_tick :
    (∀ (scan : Nat → Except String Unit) (pre post : List Nat) (d : Nat) (e : String),
      (∀ x ∈ pre, scan x = .ok ()) → scan d = .error e →
      scanStores scan (pre ++ d :: post) = (pre ++ [d], some e))
    ∧ (∀ (scan : Nat → Except String Unit) (dbs : List Nat),
      (∀ x ∈ dbs, scan x = .ok ()) → scanStores scan dbs = (dbs, none)) := by
  constructor
  · intro scan pre post d e hpre hd
    induction pre with
    | nil => simp [scanStores, hd]
    | cons p ps ih =>
      have hp := hpre p (by simp)
      simp only [List.cons_append, scanStores, hp, List.append_eq]
      rw [ih (fun x hx => hpre x (List.mem_cons_of_mem _ hx))]
  · intro scan dbs hok
    induction dbs with
    | nil => rfl
    | cons d ds ih =>
      have hd := hok d (by simp)
      simp only [scanStores, hd, List.append_eq]
      rw [ih (fun x hx => hok x (List.mem_cons_of_mem _ hx))]

/-- C7, witness: the amended statements applied at concrete store lists. -/
theorem delivery_scan_failure_isolated_to_tick_witness :
    scanStores scanBoom ([0] ++ 1 :: [2]) = ([0] ++ [1], some "boom")
    ∧ scanStores (fun _ => .ok ()) [0, 2] = ([0, 2], none) :=
  ⟨delivery_scan_failure_isolated_to_tick.1 scanBoom [0] [2] 1 "boom"
      (by
        intro x hx
        simp only [List.mem_singleton] at hx
        subst hx
        rfl)
      rfl,
   delivery_scan_failure_isolated_to_tick.2 (fun _ => .ok ()) [0, 2]
      (fun x _ => rfl)⟩

/-! ## C8: `is_from_me` messages -/

/-- C8, counterexample: a from-me message is persisted and, because
`get_new_messages_for_chat` has no `is_from_me` filter, it appears in the next
batch read for the chat — contradicting "it does not appear in the message
batches delivered to agents". -/
theorem from_me_message_included_in_agent_batch :
    evFromMe.fromMe = true
    ∧ ("User", "2024-01-01T00:00:00+00:00", "My own message")
        ∈ getNewMessagesForChat (onMessage "Andy" none Store.empty evFromMe).1
          "123@s.whatsapp.net" := by
  refine ⟨rfl, by decide⟩

/-- C8 (amended): an inbound event with `is_from_me` set (and a routable chat
and non-empty text) is persisted to the store, and the handler stops before
classification — no hard-mention or self-chat flush and no batch timer.  But
such messages are not excluded from agent batches: whenever the stored
timestamp is above the chat's agent cursor, the stored triple appears in
`get_new_messages_for_chat`. -/
theorem from_me_persisted_not_classified (trigger : String) (selfJid : Option String)
    (st : Store) (ev : InboundEvent) (t : String)
    (hme : ev.fromMe = true) (hchat : ev.chatJid ≠ "status@broadcast")
    (htext : ev.text = some t) (ht : t ≠ "") :
    (onMessage trigger selfJid st ev).2 = .drop
    ∧ (onMessage trigger selfJid st ev).1.messages
        = st.messages ++ [⟨ev.chatJid, senderOf ev, t, ev.ts, true⟩]
    ∧ (tsLt (sinceOf ((onMessage trigger selfJid st ev).1.chats.lookup ev.chatJid))
          ev.ts = true →
        (senderOf ev, ev.ts, t)
          ∈ getNewMessagesForChat (onMessage trigger selfJid st ev).1 ev.chatJid) := by
  have hms : onMessage trigger selfJid st ev =
      (updateGlobalCursor (updateChatTimestamp
        (storeMessage st ev.chatJid (senderOf ev) t ev.ts ev.fromMe) ev.chatJid ev.ts)
        ev.ts, .drop) := by
    simp only [onMessage, if_neg hchat, htext, if_neg ht, hme, if_true]
  refine ⟨by rw [hms], ?_, ?_⟩
  · rw [hms]
    simp [updateGlobalCursor, updateChatTimestamp, storeMessage, hme]
  · intro habove
    simp only [getNewMessagesForChat, mem_sortByTs]
    refine List.mem_map.mpr ⟨⟨ev.chatJid, senderOf ev, t, ev.ts, true⟩, ?_, rfl⟩
    refine List.mem_filter.mpr ⟨?_, ?_⟩
    · rw [hms]
      simp [updateGlobalCursor, updateChatTimestamp, storeMessage, hme]
    · simp only [Bool.and_eq_true, decide_eq_true_eq]
      exact ⟨by simp, habove⟩

/-- C8, witness: the amended statement applied at the concrete from-me
event. -/
theorem from_me_persisted_not_classified_witness :
    (onMessage "Andy" none Store.empty evFromMe).2 = .drop
    ∧ (onMessage "Andy" none Store.empty evFromMe).1.messages
        = Store.empty.messages ++ [⟨evFromMe.chatJid, senderOf evFromMe, "My own message",
            evFromMe.ts, true⟩]
    ∧ (tsLt (sinceOf ((onMessage "Andy" none Store.empty evFromMe).1.chats.lookup
          evFromMe.chatJid)) evFromMe.ts = true →
        (senderOf evFromMe, evFromMe.ts, "My own message")
          ∈ getNewMessagesForChat (onMessage "Andy" none Store.empty evFromMe).1
              evFromMe.chatJid) :=
  from_me_persisted_not_classified "Andy" none Store.empty evFromMe "My own message"
    rfl (by decide) rfl (by decide)

/-! ## C9: no empty outbound from agent replies -/

theorem joinSep_ne_nil {x : List Char} {xs : List (List Char)} (hx : x ≠ []) (sep : Char) :
    joinSep sep (x :: xs) ≠ [] := by
  cases xs with
  | nil => simpa [joinSep] using hx
  | cons y ys =>
    simp only [joinSep]
    intro h
    exact List.append_ne_nil_of_right_ne_nil x (by simp) h

/-- C9: the reply extractor never returns the empty string (it returns either
`None` or non-empty text), and whenever the dispatch path produces an outbound
send its text is non-empty, carrying the `[AgentName]: ` prefix in multi-agent
chats. -/
theorem extracted_reply_nonempty_and_prefixed :
    (∀ s : String, extractReply s ≠ some "")
    ∧ (∀ (s : String) (multi : Bool) (n out : String),
        dispatchOutbound s multi n = some out →
          out ≠ "" ∧ (multi = true → ∃ r, r ≠ "" ∧ out = "[" ++ n ++ "]: " ++ r)) := by
  have hne : ∀ s : String, ∀ t, extractReply s = some t → t ≠ "" := by
    intro s t h
    simp only [extractReply] at h
    set filtered := ((replySpans s.data).map stripChars).filter (fun m => m ≠ []) with hf
    cases hfil : filtered with
    | nil =>
      rw [hfil] at h
      cases h
    | cons x xs =>
      rw [hfil] at h
      have hx : x ≠ [] := by
        have : x ∈ filtered := by
          rw [hfil]
          simp
        have := List.mem_filter.mp (hf ▸ this)
        simpa using this.2
      have : some (String.mk (joinSep '\n' (x :: xs))) = some t := h
      cases this
      intro hemp
      have : joinSep '\n' (x :: xs) = [] := congrArg String.data hemp
      exact joinSep_ne_nil hx '\n' this
  constructor
  · intro s h
    exact hne s "" h rfl
  · intro s multi n out h
    simp only [dispatchOutbound] at h
    cases hex : extractReply s with
    | none =>
      rw [hex] at h
      cases h
    | some t =>
      rw [hex] at h
      have ht : t ≠ "" := hne s t hex
      have h' : (if t = "" then none
          else some (if multi then "[" ++ n ++ "]: " ++ t else t)) = some out := h
      rw [if_neg ht] at h'
      cases h'
      constructor
      · cases multi with
        | false => simpa using ht
        | true =>
          simp only [if_true]
          intro hemp
          have hnil : ('[' :: (n ++ "]: " ++ t).data) = [] := by
            simp [String.ext_iff] at hemp
          cases hnil
      · intro hm
        subst hm
        exact ⟨t, ht, by simp⟩

/-- C9, witness: the outbound-shape statement applied at a concrete reply. -/
theorem extracted_reply_nonempty_witness :
    "[Ressu]: Hi" ≠ ""
    ∧ (true = true → ∃ r, r ≠ "" ∧ "[Ressu]: Hi" = "[" ++ "Ressu" ++ "]: " ++ r) :=
  extracted_reply_nonempty_and_prefixed.2 "<reply>Hi</reply>" true "Ressu"
    "[Ressu]: Hi" (by decide)

/-! ## C10: delivery marking depends only on JID construction -/

/-- C10: `OutgoingQueue.send` is total in the embedding — disconnection and
adapter failure both enqueue instead of raising — so a pending delivery is
marked delivered exactly when its target JID can be constructed, for every
connection state and adapter behaviour; the mark-failed branch fires exactly
when JID construction fails.  Concretely, even a disconnected client (message
merely queued) yields `delivered`. -/
theorem delivery_marked_delivered_iff_jid_built :
    (∀ (cfg : RoutingConfig) (jidOf : String → Option String) (connected : Bool)
        (good : String → String → Bool) (q : List QueuedMsg) (d : Delivery),
      ((processOneDelivery cfg jidOf connected good q d).2 = .delivered
          ↔ (jidOf (resolveDelivery cfg d.conversation).2).isSome = true)
      ∧ ((processOneDelivery cfg jidOf connected good q d).2 = .failed "send failed"
          ↔ jidOf (resolveDelivery cfg d.conversation).2 = none))
    ∧ processOneDelivery cfgMulti (fun c => some c) false (fun _ _ => false) [] exDelivery
        = ([("123@s.whatsapp.net", "task done")], .delivered)
    ∧ processOneDelivery cfgMulti (fun _ => none) true (fun _ _ => true) [] exDelivery
        = ([], .failed "send failed") := by
  refine ⟨?_, by decide, by decide⟩
  intro cfg jidOf connected good q d
  simp only [processOneDelivery]
  cases hj : jidOf (resolveDelivery cfg d.conversation).2 with
  | none => simp [hj]
  | some jid => simp [hj]

end PykoWa
